import Mathlib

set_option maxRecDepth 100000
set_option linter.unnecessarySeqFocus false

/-!
Verification development for the pycopia parsing core: the time-duration
parser (`aid/pycopia/timespec.py`) and the POSIX-shell-style tokenizer
(`core/pycopia/shparser.py`).

Both parsers run on the generic `pycopia.fsm.FSM` engine, whose source file
is not part of the tree examined here; the engine's semantics (transition
lookup: exact symbol match first, then the per-state ANY wildcard, then the
default transition; the action is invoked with the symbol before the state
is updated; a LIFO pushback stack that the driving loop drains after every
processed symbol; `reset` restores state 0 and clears the accumulator and
the stack) are modelled from the spec, section 4.1.  The transition tables
and all actions are translated from the two parser source files.

Numbers are modelled as rationals; every numeric value appearing in the
source and in the properties below (86400.0, 1.5, ...) is exactly
representable in binary floating point, so rational arithmetic coincides
with the Python float arithmetic actually performed.
-/

/-- Modelled from the spec: `pycopia.textutils.digits` (the decimal digit
character class used by `add_transition_list`); `textutils` is not in the
examined tree. -/
def digitsClass : String := "0123456789"

/-- Modelled from the spec: `pycopia.textutils.letters` (ASCII letters). -/
def lettersClass : String := "abcdefghijklmnopqrstuvwxyzABCDEFGHIJKLMNOPQRSTUVWXYZ"

/-- Modelled from the spec: `pycopia.textutils.whitespace` (the whitespace
character class, as in Python `string.whitespace`). -/
def whitespaceClass : String := " \t\n\r\x0b\x0c"

/-- Numeric value of a list of decimal digit characters, most significant
first (what Python `float` computes for the integer / fractional digit
runs of the accumulator). -/
def charsVal (cs : List Char) : ℕ :=
  cs.foldl (fun a c => 10 * a + (c.toNat - 48)) 0

/-- Model of Python `float()` restricted to the alphabet the parsers can
ever place in the FSM accumulator (an optional leading sign, decimal
digits and at most one decimal point): `none` models `ValueError`. -/
def pyFloat (s : String) : Option ℚ :=
  let cs := s.toList
  let p : ℚ × List Char :=
    match cs with
    | c :: t => if c = '+' then (1, t) else if c = '-' then (-1, t) else (1, cs)
    | [] => (1, [])
  let ip := p.2.takeWhile Char.isDigit
  match p.2.dropWhile Char.isDigit with
  | [] => if ip = [] then none else some (p.1 * (charsVal ip : ℚ))
  | '.' :: fp =>
    if (fp.all Char.isDigit) = true ∧ (ip ≠ [] ∨ fp ≠ []) then
      some (p.1 * ((charsVal ip : ℚ) + (charsVal fp : ℚ) / 10 ^ fp.length))
    else none
  | _ => none

instance exceptDecEq {ε α : Type} [DecidableEq ε] [DecidableEq α] :
    DecidableEq (Except ε α) := fun x y =>
  match x, y with
  | .error e, .error f => decidable_of_iff (e = f) (by simp)
  | .error _, .ok _ => isFalse (by simp)
  | .ok _, .error _ => isFalse (by simp)
  | .ok a, .ok b => decidable_of_iff (a = b) (by simp)

/-- The two distinct `ValueError` sites of `TimespecParser`, kept apart so
that theorems can tell the default-transition (malformed input) error in
`_error` from the unguarded `float()` conversions in `_multiplier` and in
the end-of-input flush of `parse`. -/
inductive TsErr where
  | fsmError (sym : Char)
  | floatErrorMult (arg : String)
  | floatErrorFlush (arg : String)
  deriving DecidableEq

/-- Session state of `TimespecParser`: the FSM's current state and
accumulator (`fsm.arg`) plus the running `_seconds` total. -/
structure TsM where
  current_state : ℕ
  arg : String
  seconds : ℚ
  deriving DecidableEq

/-- `TimespecParser._MULTIPLIERS` lookup (only ever called on `dhms`). -/
def tsMultiplier (c : Char) : ℚ :=
  if c = 'd' then 86400 else if c = 'h' then 3600 else if c = 'm' then 60 else 1

/-- Action tags for the timespec FSM transition table. -/
inductive TsAct where
  | nop | addtext | newdigit | multiplier | err
  deriving DecidableEq

/-- The transition table built in `TimespecParser.__init__`, as a lookup
function: exact (symbol, state) registrations first, anything unmatched
falls to the default transition (`_error`, to state 0). -/
def tsLookup (st : ℕ) (c : Char) : TsAct × ℕ :=
  match st with
  | 0 =>
    if digitsClass.toList.contains c ∨ c = '+' ∨ c = '-' then (.newdigit, 1)
    else (.err, 0)
  | 1 =>
    if digitsClass.toList.contains c then (.addtext, 1)
    else if c = '.' then (.addtext, 2)
    else if c = 'd' ∨ c = 'h' ∨ c = 'm' ∨ c = 's' then (.multiplier, 3)
    else (.err, 0)
  | 2 =>
    if digitsClass.toList.contains c then (.addtext, 2)
    else if c = 'd' ∨ c = 'h' ∨ c = 'm' ∨ c = 's' then (.multiplier, 3)
    else (.err, 0)
  | 3 =>
    if digitsClass.toList.contains c ∨ c = '+' ∨ c = '-' then (.newdigit, 1)
    else if lettersClass.toList.contains c then (.nop, 3)
    else if whitespaceClass.toList.contains c then (.nop, 3)
    else (.err, 0)
  | _ => (.err, 0)

/-- One `FSM.process` step of the timespec parser: look the transition up,
run the action (`_addtext`, `_newdigit`, `_multiplier`, or `_error`, which
raises), then move to the target state.  `_multiplier`'s unguarded
`float(fsm.arg)` is modelled by `pyFloat`. -/
def tsStep (c : Char) (m : TsM) : Except TsErr TsM :=
  let t := tsLookup m.current_state c
  match t.1 with
  | .nop => .ok { m with current_state := t.2 }
  | .addtext => .ok { m with arg := m.arg.push c, current_state := t.2 }
  | .newdigit => .ok { m with arg := String.singleton c, current_state := t.2 }
  | .multiplier =>
    match pyFloat m.arg with
    | none => .error (.floatErrorMult m.arg)
    | some v =>
      .ok { m with arg := "", seconds := m.seconds + v * tsMultiplier c,
                   current_state := t.2 }
  | .err => .error (.fsmError c)

/-- `FSM.process_string`: process each character in order; a raised
`ValueError` aborts the run. -/
def tsRun : List Char → TsM → Except TsErr TsM
  | [], m => .ok m
  | c :: cs, m =>
    match tsStep c m with
    | .error e => .error e
    | .ok m1 => tsRun cs m1

/-- `TimespecParser.parse`: reset the automaton and the total, feed every
character, then flush a dangling accumulator through the unguarded
`float()` (bare seconds), and return the total. -/
def tsParse (s : String) : Except TsErr ℚ :=
  match tsRun s.toList { current_state := 0, arg := "", seconds := 0 } with
  | .error e => .error e
  | .ok m =>
    if m.arg ≠ "" then
      match pyFloat m.arg with
      | none => .error (.floatErrorFlush m.arg)
      | some v => .ok (m.seconds + v)
    else .ok m.seconds

/-- The marks yielded by `TimeMarksGenerator` once the leading entries up
to the current one are consumed: entry `"..."` switches to the
`TimeRepeater(last, last - lastlast)` loop, whose n-th yield (counting
from 0) is `last + (last - lastlast) * (n + 1)`; any other entry is parsed
and yielded, updating `lastlast`/`last`.  `.ok none` models generator
exhaustion, `.error` a `ValueError` escaping from `parse`. -/
def marksFrom : List String → ℚ → ℚ → ℕ → Except TsErr (Option ℚ)
  | [], _, _, _ => .ok none
  | mark :: rest, lastlast, last, n =>
    if mark = "..." then
      .ok (some (last + (last - lastlast) * ((n : ℚ) + 1)))
    else
      match tsParse mark with
      | .error e => .error e
      | .ok secs =>
        match n with
        | 0 => .ok (some secs)
        | Nat.succ k => marksFrom rest last secs k

/-- `TimeMarksGenerator(timespecs)` as the function giving its n-th yield:
split on commas, strip each entry, then walk the entries. -/
def TimeMarksGenerator (timespecs : String) : ℕ → Except TsErr (Option ℚ) :=
  marksFrom ((timespecs.splitOn ",").map String.trim) 0 0

/-- The four duration units of `_MULTIPLIERS`. -/
inductive TUnit where
  | d | h | m | s
  deriving DecidableEq

def unitChar : TUnit → Char
  | .d => 'd'
  | .h => 'h'
  | .m => 'm'
  | .s => 's'

def unitMult : TUnit → ℚ
  | .d => 86400
  | .h => 3600
  | .m => 60
  | .s => 1

/-- A decimal numeral as the duration grammar accepts it: an optional sign
(`some false` is `+`, `some true` is `-`), a first digit, further integer
digits, and an optional fractional digit list after the decimal point. -/
structure NumLit where
  neg : Option Bool
  hd : Fin 10
  tl : List (Fin 10)
  frac : Option (List (Fin 10))

def digitChar (d : Fin 10) : Char := Char.ofNat (48 + d.val)

def signChars (x : NumLit) : List Char :=
  match x.neg with
  | none => []
  | some false => ['+']
  | some true => ['-']

/-- The characters of the optional fractional part. -/
def fracChars (fr : Option (List (Fin 10))) : List Char :=
  match fr with
  | none => []
  | some ds => '.' :: ds.map digitChar

def renderNum (x : NumLit) : List Char :=
  signChars x ++ (x.hd :: x.tl).map digitChar ++ fracChars x.frac

/-- The FSM state in which a numeral leaves the parser: 1 after integer
digits, 2 once a decimal point was consumed. -/
def fracState (fr : Option (List (Fin 10))) : ℕ :=
  match fr with
  | none => 1
  | some _ => 2

def numState (x : NumLit) : ℕ := fracState x.frac

def intval (ds : List (Fin 10)) : ℕ := ds.foldl (fun a d => 10 * a + d.val) 0

/-- The rational value denoted by the numeral (what Python `float` returns
on its rendering). -/
def numValue (x : NumLit) : ℚ :=
  (if x.neg = some true then -1 else 1) *
    ((intval (x.hd :: x.tl) : ℚ) +
      match x.frac with
      | none => 0
      | some ds => (intval ds : ℚ) / 10 ^ ds.length)

/-- One `<number><unit>` group of a duration expression. -/
structure TGroup where
  num : NumLit
  unit : TUnit

def renderGroup (g : TGroup) : List Char := renderNum g.num ++ [unitChar g.unit]

def groupValue (g : TGroup) : ℚ := numValue g.num * unitMult g.unit

/-- A whole duration expression: a run of groups followed by an optional
bare trailing numeral (interpreted as seconds). -/
def trailChars (tr : Option NumLit) : List Char :=
  match tr with
  | none => []
  | some x => renderNum x

def trailValue (tr : Option NumLit) : ℚ :=
  match tr with
  | none => 0
  | some x => numValue x

def renderSpec (gs : List TGroup) (tr : Option NumLit) : List Char :=
  (gs.map renderGroup).flatten ++ trailChars tr

def specValue (gs : List TGroup) (tr : Option NumLit) : ℚ :=
  (gs.map groupValue).sum + trailValue tr

/-- `_SPECIAL` escape substitution table of the shell parser:
`r`, `n`, `t`, `b` map to CR, LF, TAB, BACKSPACE; everything else is
passed through unchanged. -/
def shSpecial (c : Char) : Char :=
  if c = 'r' then '\r' else if c = 'n' then '\n'
  else if c = 't' then '\t' else if c = 'b' then '\x08' else c

/-- `ShellParser.VARNAME`: the variable-name alphabet. -/
def VARNAME : String :=
  "abcdefghijklmnopqrstuvwxyzABCDEFGHIJKLMNOPQRSTUVWXYZ0123456789_?"

/-- Action tags for the shell tokenizer's transition table (`err` is the
default transition's `_error`, `nop` a `None` action). -/
inductive ShAct where
  | nop | addtext | wordbreak | doit | slashescape | startvar | vartext
  | endvar | endvarbrace | singlequote | doublequote | err
  deriving DecidableEq

/-- The whole `ShellParser` session: the FSM fields (`current_state`,
accumulator `arg`, scratch `varname`, pushback `stack`) and the parser
fields (`arg_list`, the carry-over buffer `_buf`, plus two observation
logs: `out` records every argv delivered to the callback, `errout` every
symbol reported by `_error`, which only prints and resets). -/
structure Sh where
  current_state : ℕ
  arg : String
  varname : String
  stack : List Char
  arg_list : List String
  out : List (List String)
  buf : String
  errout : List Char
  deriving DecidableEq

/-- The transition table built in `ShellParser._init`, as a lookup
function: exact (symbol, state) registrations take priority over the
per-state ANY wildcard; states without a wildcard (none here among the
reachable ones) fall to the default transition (`_error`, to state 0). -/
def shLookup (st : ℕ) (c : Char) : ShAct × ℕ :=
  match st with
  | 0 =>
    if c = ' ' ∨ c = '\t' then (.wordbreak, 0)
    else if c = ';' ∨ c = '\n' then (.doit, 0)
    else if c = '\\' then (.nop, 1)
    else if c = '$' then (.startvar, 7)
    else if c = '\'' then (.nop, 2)
    else if c = '"' then (.nop, 3)
    else (.addtext, 0)
  | 1 => (.slashescape, 0)
  | 2 => if c = '\'' then (.singlequote, 0) else (.addtext, 2)
  | 3 =>
    if c = '\\' then (.nop, 6)
    else if c = '$' then (.startvar, 8)
    else if c = '"' then (.doublequote, 0)
    else (.addtext, 3)
  | 6 => (.slashescape, 3)
  | 7 =>
    if c = '{' then (.vartext, 9)
    else if VARNAME.toList.contains c then (.vartext, 7)
    else (.endvar, 0)
  | 8 =>
    if c = '{' then (.vartext, 10)
    else if VARNAME.toList.contains c then (.vartext, 8)
    else (.endvar, 3)
  | 9 => if c = '}' then (.endvarbrace, 0) else (.vartext, 9)
  | 10 => if c = '}' then (.endvarbrace, 3) else (.vartext, 10)
  | _ => (.err, 0)

/-- `os.environ.get(name, "")`: the environment resolver, with the empty
string for undefined names. -/
def envGet (env : String → Option String) (name : String) : String :=
  (env name).getD ""

/-- The shell tokenizer's action callbacks, translated one-to-one from
`ShellParser` (`_addtext`, `_wordbreak`, `_doit`, `_slashescape`,
`_startvar`, `_vartext`, `_endvar`, `_endvarbrace`, `_singlequote`,
`_doublequote`, `_error`). -/
def shApply (env : String → Option String) (a : ShAct) (c : Char) (m : Sh) : Sh :=
  match a with
  | .nop => m
  | .addtext => { m with arg := m.arg.push c }
  | .wordbreak =>
    if m.arg ≠ "" then { m with arg_list := m.arg_list ++ [m.arg], arg := "" }
    else m
  | .doit =>
    let al := if m.arg ≠ "" then m.arg_list ++ [m.arg] else m.arg_list
    { m with arg := "", arg_list := [], out := m.out ++ [al] }
  | .slashescape => { m with arg := m.arg.push (shSpecial c) }
  | .startvar => { m with varname := String.singleton c }
  | .vartext => { m with varname := m.varname.push c }
  | .endvar =>
    { m with stack := c :: m.stack,
             arg := m.arg ++ envGet env (m.varname.drop 1) }
  | .endvarbrace =>
    let vn := m.varname.push c
    { m with varname := vn,
             arg := m.arg ++ envGet env ((vn.drop 2).dropRight 1) }
  | .singlequote => { m with arg_list := m.arg_list ++ [m.arg], arg := "" }
  | .doublequote => { m with arg_list := m.arg_list ++ [m.arg], arg := "" }
  | .err =>
    { m with current_state := 0, arg := "", stack := [],
             errout := m.errout ++ [c] }

/-- One `FSM.process` step of the shell tokenizer: look up, run the
action, then set the target state. -/
def shProcess (env : String → Option String) (c : Char) (m : Sh) : Sh :=
  { shApply env (shLookup m.current_state c).1 c m with
    current_state := (shLookup m.current_state c).2 }

/-- The pushback-draining loop of `ShellParser.feed` (`while stack:
process(pop())`), with explicit fuel.  Fuel 2 in `shStep` is exact: only
`_endvar` pushes (one symbol), and reprocessing a popped symbol in its
target state 0 or 3 never pushes again — `shStep_stack` below proves the
stack is empty after every step, so the bounded drain agrees with the
unbounded loop. -/
def shDrain (env : String → Option String) : ℕ → Sh → Sh
  | 0, m => m
  | Nat.succ k, m =>
    match m.stack with
    | [] => m
    | c :: rest => shDrain env k (shProcess env c { m with stack := rest })

/-- Processing of one input character by `ShellParser.feed`: one
`process` call followed by the stack drain. -/
def shStep (env : String → Option String) (c : Char) (m : Sh) : Sh :=
  shDrain env 2 (shProcess env c m)

/-- The character loop of `ShellParser.feed`. -/
def shRunList (env : String → Option String) (cs : List Char) (m : Sh) : Sh :=
  cs.foldl (fun acc c => shStep env c acc) m

/-- `ShellParser.feed(text)`: prepend the carry-over buffer, process every
character, and afterwards set `_buf = text[i:]` when the automaton is left
in a non-zero state — `i` having been incremented once per character, the
assigned slice is always the empty string. -/
def shFeed (env : String → Option String) (text : String) (m : Sh) : Sh :=
  let m1 := shRunList env (m.buf ++ text).toList m
  if m1.current_state ≠ 0 then { m1 with buf := "" } else m1

/-- A freshly constructed `ShellParser` session. -/
def initSh : Sh :=
  { current_state := 0, arg := "", varname := "", stack := [], arg_list := [],
    out := [], buf := "", errout := [] }

/-- `ShellParser.reset`: clears the session's `arg_list` and carry-over
buffer (and rebinds the vestigial, unused `self.states` list, not
modelled); it does NOT touch the FSM instance, whose current state,
accumulator and stack persist across `reset`. -/
def shReset (m : Sh) : Sh :=
  { m with arg_list := [], buf := "" }

/-- An environment in which `HOME` resolves to `/home/u`. -/
def envHome : String → Option String :=
  fun n => if n = "HOME" then some "/home/u" else none

/-- The empty environment: every variable is undefined. -/
def envEmpty : String → Option String := fun _ => none

/-- A string has balanced quoting when tokenizing it from a fresh session
leaves the automaton outside every intra-quote state: 2 (single quote),
3 (double quote), 6 (escape inside double quote), 8 and 10 (variable name
inside double quote). -/
def balancedQuoting (env : String → Option String) (s : String) : Prop :=
  (shRunList env s.toList initSh).current_state ≠ 2 ∧
  (shRunList env s.toList initSh).current_state ≠ 3 ∧
  (shRunList env s.toList initSh).current_state ≠ 6 ∧
  (shRunList env s.toList initSh).current_state ≠ 8 ∧
  (shRunList env s.toList initSh).current_state ≠ 10

theorem digitChar_spec (d : Fin 10) :
    digitsClass.toList.contains (digitChar d) = true
    ∧ (digitChar d).isDigit = true
    ∧ digitChar d ≠ '.' ∧ digitChar d ≠ '+' ∧ digitChar d ≠ '-'
    ∧ (digitChar d).toNat = 48 + d.val := by
  fin_cases d <;> refine ⟨rfl, rfl, by decide, by decide, by decide, rfl⟩

theorem tsLookup_digit (d : Fin 10) :
    tsLookup 0 (digitChar d) = (.newdigit, 1) ∧ tsLookup 1 (digitChar d) = (.addtext, 1)
    ∧ tsLookup 2 (digitChar d) = (.addtext, 2) ∧ tsLookup 3 (digitChar d) = (.newdigit, 1) := by
  fin_cases d <;> refine ⟨rfl, rfl, rfl, rfl⟩

theorem tsLookup_sign (c : Char) (h : c = '+' ∨ c = '-') :
    tsLookup 0 c = (.newdigit, 1) ∧ tsLookup 3 c = (.newdigit, 1) := by
  rcases h with h|h <;> subst h <;> exact ⟨rfl, rfl⟩

theorem tsLookup_dot : tsLookup 1 '.' = (.addtext, 2) := rfl

theorem tsLookup_unit (u : TUnit) :
    tsLookup 1 (unitChar u) = (.multiplier, 3) ∧ tsLookup 2 (unitChar u) = (.multiplier, 3)
    ∧ tsMultiplier (unitChar u) = unitMult u := by
  cases u <;> exact ⟨rfl, rfl, rfl⟩

theorem tsStep_addtext (c : Char) (m : TsM) (t : ℕ)
    (hlk : tsLookup m.current_state c = (.addtext, t)) :
    tsStep c m = .ok { current_state := t, arg := m.arg.push c, seconds := m.seconds } := by
  unfold tsStep
  rw [hlk]

theorem tsStep_newdigit (c : Char) (m : TsM) (t : ℕ)
    (hlk : tsLookup m.current_state c = (.newdigit, t)) :
    tsStep c m = .ok { current_state := t, arg := String.singleton c, seconds := m.seconds } := by
  unfold tsStep
  rw [hlk]

theorem tsStep_mult (c : Char) (m : TsM) (t : ℕ) (v : ℚ)
    (hlk : tsLookup m.current_state c = (.multiplier, t)) (hv : pyFloat m.arg = some v) :
    tsStep c m = .ok { current_state := t, arg := "",
                       seconds := m.seconds + v * tsMultiplier c } := by
  unfold tsStep
  rw [hlk, hv]

theorem tsRun_append (l1 l2 : List Char) (m : TsM) :
    tsRun (l1 ++ l2) m = (match tsRun l1 m with
      | .error e => Except.error e
      | .ok m1 => tsRun l2 m1) := by
  induction l1 generalizing m with
  | nil => rfl
  | cons c cs ih =>
    simp only [List.cons_append, tsRun]
    cases h : tsStep c m with
    | error e => rfl
    | ok m1 => exact ih m1

theorem tsRun_append_ok (l1 l2 : List Char) (m m1 : TsM) (h : tsRun l1 m = .ok m1) :
    tsRun (l1 ++ l2) m = tsRun l2 m1 := by
  rw [tsRun_append, h]

theorem tsRun_cons_ok (c : Char) (cs : List Char) (m m1 : TsM) (h : tsStep c m = .ok m1) :
    tsRun (c :: cs) m = tsRun cs m1 := by
  simp only [tsRun, h]

theorem tsRun_digits (s : ℕ) (hs : s = 1 ∨ s = 2) (ds : List (Fin 10)) :
    ∀ (a : String) (sec : ℚ),
    tsRun (ds.map digitChar) { current_state := s, arg := a, seconds := sec }
      = .ok { current_state := s, arg := String.mk (a.data ++ ds.map digitChar),
              seconds := sec } := by
  induction ds with
  | nil =>
    intro a sec
    obtain ⟨ad⟩ := a
    simp [tsRun]
  | cons d ds ih =>
    intro a sec
    have hlk : tsLookup s (digitChar d) = (.addtext, s) := by
      rcases hs with hs|hs <;> subst hs
      · exact (tsLookup_digit d).2.1
      · exact (tsLookup_digit d).2.2.1
    rw [List.map_cons]
    rw [tsRun_cons_ok _ _ _ _
      (tsStep_addtext (digitChar d) { current_state := s, arg := a, seconds := sec } s hlk)]
    rw [ih _ sec]
    simp [String.push, List.append_assoc]

theorem tsRun_int (hd : Fin 10) (tl : List (Fin 10)) (m : TsM)
    (h : m.current_state = 0 ∨ m.current_state = 3) :
    tsRun ((hd :: tl).map digitChar) m
      = .ok { current_state := 1, arg := String.mk ((hd :: tl).map digitChar),
              seconds := m.seconds } := by
  have hlk : tsLookup m.current_state (digitChar hd) = (.newdigit, 1) := by
    rcases h with h|h <;> rw [h]
    · exact (tsLookup_digit hd).1
    · exact (tsLookup_digit hd).2.2.2
  rw [List.map_cons]
  rw [tsRun_cons_ok _ _ _ _ (tsStep_newdigit (digitChar hd) m 1 hlk)]
  rw [tsRun_digits 1 (Or.inl rfl) tl _ _]
  simp [String.singleton]

theorem tsRun_fracpart (fr : Option (List (Fin 10))) (a : String) (sec : ℚ) :
    tsRun (fracChars fr) { current_state := 1, arg := a, seconds := sec }
      = .ok { current_state := fracState fr, arg := String.mk (a.data ++ fracChars fr),
              seconds := sec } := by
  cases fr with
  | none =>
    obtain ⟨ad⟩ := a
    simp [fracChars, fracState, tsRun]
  | some ds =>
    have hlk : tsLookup 1 '.' = (.addtext, 2) := tsLookup_dot
    show tsRun ('.' :: ds.map digitChar) _ = _
    rw [tsRun_cons_ok _ _ _ _
      (tsStep_addtext '.' { current_state := 1, arg := a, seconds := sec } 2 hlk)]
    rw [tsRun_digits 2 (Or.inr rfl) ds _ _]
    simp [fracChars, fracState, String.push, List.append_assoc]

theorem tsRun_num (x : NumLit) (m : TsM) (h : m.current_state = 0 ∨ m.current_state = 3) :
    tsRun (renderNum x) m
      = .ok { current_state := numState x, arg := String.mk (renderNum x),
              seconds := m.seconds } := by
  obtain ⟨neg, hd, tl, fr⟩ := x
  cases neg with
  | none =>
    show tsRun (signChars _ ++ _ ++ _) m = _
    simp only [signChars, List.nil_append]
    rw [tsRun_append_ok _ _ _ _ (tsRun_int hd tl m h)]
    rw [tsRun_fracpart fr _ _]
    simp [renderNum, signChars, numState]
  | some b =>
    cases b with
    | false =>
      have hlk : tsLookup m.current_state '+' = (.newdigit, 1) := by
        rcases h with h|h <;> rw [h]
        · exact (tsLookup_sign '+' (Or.inl rfl)).1
        · exact (tsLookup_sign '+' (Or.inl rfl)).2
      rw [show renderNum ⟨some false, hd, tl, fr⟩
          = '+' :: ((hd :: tl).map digitChar ++ fracChars fr) from rfl]
      rw [tsRun_cons_ok _ _ _ _ (tsStep_newdigit '+' m 1 hlk)]
      rw [tsRun_append_ok _ _ _ _ (tsRun_digits 1 (Or.inl rfl) (hd :: tl) _ _)]
      rw [tsRun_fracpart fr _ _]
      simp [renderNum, signChars, numState, String.singleton, List.append_assoc]
    | true =>
      have hlk : tsLookup m.current_state '-' = (.newdigit, 1) := by
        rcases h with h|h <;> rw [h]
        · exact (tsLookup_sign '-' (Or.inr rfl)).1
        · exact (tsLookup_sign '-' (Or.inr rfl)).2
      rw [show renderNum ⟨some true, hd, tl, fr⟩
          = '-' :: ((hd :: tl).map digitChar ++ fracChars fr) from rfl]
      rw [tsRun_cons_ok _ _ _ _ (tsStep_newdigit '-' m 1 hlk)]
      rw [tsRun_append_ok _ _ _ _ (tsRun_digits 1 (Or.inl rfl) (hd :: tl) _ _)]
      rw [tsRun_fracpart fr _ _]
      simp [renderNum, signChars, numState, String.singleton, List.append_assoc]

theorem charsVal_map (ds : List (Fin 10)) : ∀ a : ℕ,
    (ds.map digitChar).foldl (fun a c => 10 * a + (c.toNat - 48)) a
      = ds.foldl (fun a d => 10 * a + d.val) a := by
  induction ds with
  | nil => intro a; rfl
  | cons d ds ih =>
    intro a
    rw [List.map_cons, List.foldl_cons, List.foldl_cons, (digitChar_spec d).2.2.2.2.2]
    have hv : 48 + d.val - 48 = d.val := by omega
    rw [hv]
    exact ih _

theorem charsVal_eq (ds : List (Fin 10)) : charsVal (ds.map digitChar) = intval ds :=
  charsVal_map ds 0

theorem takeWhile_digits (ds : List (Fin 10)) (r : List Char)
    (hr : r.takeWhile Char.isDigit = []) :
    (ds.map digitChar ++ r).takeWhile Char.isDigit = ds.map digitChar := by
  induction ds with
  | nil => simpa using hr
  | cons d ds ih =>
    rw [List.map_cons, List.cons_append, List.takeWhile_cons, (digitChar_spec d).2.1]
    simpa using ih

theorem dropWhile_digits (ds : List (Fin 10)) (r : List Char)
    (hr : r.dropWhile Char.isDigit = r) :
    (ds.map digitChar ++ r).dropWhile Char.isDigit = r := by
  induction ds with
  | nil => simpa using hr
  | cons d ds ih =>
    rw [List.map_cons, List.cons_append, List.dropWhile_cons, (digitChar_spec d).2.1]
    simpa using ih

theorem all_digits (ds : List (Fin 10)) : (ds.map digitChar).all Char.isDigit = true := by
  induction ds with
  | nil => rfl
  | cons d ds ih => simp [List.all_cons, (digitChar_spec d).2.1, ih]

theorem fracChars_takeWhile (fr : Option (List (Fin 10))) :
    (fracChars fr).takeWhile Char.isDigit = [] := by
  cases fr <;> simp [fracChars]

theorem fracChars_dropWhile (fr : Option (List (Fin 10))) :
    (fracChars fr).dropWhile Char.isDigit = fracChars fr := by
  cases fr <;> simp [fracChars]

theorem renderNum_ne_nil (x : NumLit) : renderNum x ≠ [] := by
  obtain ⟨neg, hd, tl, fr⟩ := x
  rcases neg with _ | b
  · simp [renderNum, signChars]
  · cases b <;> simp [renderNum, signChars]

theorem mk_ne_empty (l : List Char) (h : l ≠ []) : String.mk l ≠ "" := by
  intro hcon
  apply h
  have h2 := congrArg String.data hcon
  rw [show ("" : String).data = [] from rfl] at h2
  exact h2

theorem charsVal_cons_eq (hd : Fin 10) (tl : List (Fin 10)) :
    charsVal (digitChar hd :: tl.map digitChar) = intval (hd :: tl) :=
  charsVal_eq (hd :: tl)

theorem pyFloat_render (x : NumLit) :
    pyFloat (String.mk (renderNum x)) = some (numValue x) := by
  obtain ⟨ng, hd, tl, fr⟩ := x
  have hip := takeWhile_digits tl (fracChars fr) (fracChars_takeWhile fr)
  have hdp := dropWhile_digits tl (fracChars fr) (fracChars_dropWhile fr)
  cases fr with
  | none =>
    simp only [fracChars, List.append_nil] at hip hdp
    cases ng with
    | none =>
      rw [show renderNum ⟨none, hd, tl, none⟩
          = digitChar hd :: (tl.map digitChar ++ fracChars none) from by
        simp [renderNum, signChars]]
      simp [pyFloat, String.toList, List.takeWhile_cons, List.dropWhile_cons,
        (digitChar_spec hd).2.1, hip, hdp, (digitChar_spec hd).2.2.2.1,
        (digitChar_spec hd).2.2.2.2.1, fracChars, charsVal_cons_eq, numValue]
    | some b =>
      cases b with
      | false =>
        rw [show renderNum ⟨some false, hd, tl, none⟩
            = '+' :: (digitChar hd :: (tl.map digitChar ++ fracChars none)) from by
          simp [renderNum, signChars]]
        simp [pyFloat, String.toList, List.takeWhile_cons, List.dropWhile_cons,
          (digitChar_spec hd).2.1, hip, hdp, (digitChar_spec hd).2.2.2.1,
          (digitChar_spec hd).2.2.2.2.1, fracChars, charsVal_cons_eq, numValue]
      | true =>
        rw [show renderNum ⟨some true, hd, tl, none⟩
            = '-' :: (digitChar hd :: (tl.map digitChar ++ fracChars none)) from by
          simp [renderNum, signChars]]
        simp [pyFloat, String.toList, List.takeWhile_cons, List.dropWhile_cons,
          (digitChar_spec hd).2.1, hip, hdp, (digitChar_spec hd).2.2.2.1,
          (digitChar_spec hd).2.2.2.2.1, fracChars, charsVal_cons_eq, numValue]
  | some ds =>
    simp only [fracChars] at hip hdp
    cases ng with
    | none =>
      rw [show renderNum ⟨none, hd, tl, some ds⟩
          = digitChar hd :: (tl.map digitChar ++ fracChars (some ds)) from by
        simp [renderNum, signChars]]
      simp [pyFloat, String.toList, List.takeWhile_cons, List.dropWhile_cons,
        (digitChar_spec hd).2.1, hip, hdp, (digitChar_spec hd).2.2.2.1,
        (digitChar_spec hd).2.2.2.2.1, fracChars, charsVal_cons_eq, numValue,
        all_digits, charsVal_eq]
    | some b =>
      cases b with
      | false =>
        rw [show renderNum ⟨some false, hd, tl, some ds⟩
            = '+' :: (digitChar hd :: (tl.map digitChar ++ fracChars (some ds))) from by
          simp [renderNum, signChars]]
        simp [pyFloat, String.toList, List.takeWhile_cons, List.dropWhile_cons,
          (digitChar_spec hd).2.1, hip, hdp, (digitChar_spec hd).2.2.2.1,
          (digitChar_spec hd).2.2.2.2.1, fracChars, charsVal_cons_eq, numValue,
          all_digits, charsVal_eq]
      | true =>
        rw [show renderNum ⟨some true, hd, tl, some ds⟩
            = '-' :: (digitChar hd :: (tl.map digitChar ++ fracChars (some ds))) from by
          simp [renderNum, signChars]]
        simp [pyFloat, String.toList, List.takeWhile_cons, List.dropWhile_cons,
          (digitChar_spec hd).2.1, hip, hdp, (digitChar_spec hd).2.2.2.1,
          (digitChar_spec hd).2.2.2.2.1, fracChars, charsVal_cons_eq, numValue,
          all_digits, charsVal_eq]

theorem numState_cases (x : NumLit) : numState x = 1 ∨ numState x = 2 := by
  cases h : x.frac <;> simp [numState, fracState, h]

theorem tsRun_group (g : TGroup) (m : TsM)
    (h : m.current_state = 0 ∨ m.current_state = 3) :
    tsRun (renderGroup g) m
      = .ok { current_state := 3, arg := "", seconds := m.seconds + groupValue g } := by
  have hnum := tsRun_num g.num m h
  rw [renderGroup, tsRun_append_ok _ _ _ _ hnum]
  have hlk : tsLookup (numState g.num) (unitChar g.unit) = (.multiplier, 3) := by
    rcases numState_cases g.num with h1 | h1 <;> rw [h1]
    · exact (tsLookup_unit g.unit).1
    · exact (tsLookup_unit g.unit).2.1
  have hstep := tsStep_mult (unitChar g.unit)
      { current_state := numState g.num, arg := String.mk (renderNum g.num),
        seconds := m.seconds } 3 (numValue g.num) hlk (pyFloat_render g.num)
  rw [tsRun_cons_ok _ _ _ _ hstep]
  rw [show tsMultiplier (unitChar g.unit) = unitMult g.unit from (tsLookup_unit g.unit).2.2]
  rfl

theorem tsRun_groups (gs : List TGroup) : ∀ (m : TsM),
    (m.current_state = 0 ∨ m.current_state = 3) → m.arg = "" →
    ∃ s2, (s2 = 0 ∨ s2 = 3) ∧
    tsRun (gs.map renderGroup).flatten m
      = .ok { current_state := s2, arg := "",
              seconds := m.seconds + (gs.map groupValue).sum } := by
  induction gs with
  | nil =>
    intro m h ha
    refine ⟨m.current_state, h, ?_⟩
    obtain ⟨s, a, sec⟩ := m
    simp only at ha
    subst ha
    simp [tsRun]
  | cons g gs ih =>
    intro m h ha
    have hg := tsRun_group g m h
    rw [List.map_cons, List.flatten_cons, tsRun_append_ok _ _ _ _ hg]
    obtain ⟨s2, hs2, hrun⟩ :=
      ih { current_state := 3, arg := "", seconds := m.seconds + groupValue g }
        (Or.inr rfl) rfl
    refine ⟨s2, hs2, ?_⟩
    rw [hrun]
    simp [List.sum_cons, add_assoc]

theorem tsParse_render (gs : List TGroup) (tr : Option NumLit) :
    tsParse (String.mk (renderSpec gs tr)) = .ok (specValue gs tr) := by
  unfold tsParse
  rw [show (String.mk (renderSpec gs tr)).toList = renderSpec gs tr from rfl]
  unfold renderSpec
  obtain ⟨s2, hs2, hrun⟩ :=
    tsRun_groups gs { current_state := 0, arg := "", seconds := 0 } (Or.inl rfl) rfl
  rw [tsRun_append_ok _ _ _ _ hrun]
  cases tr with
  | none =>
    simp [trailChars, tsRun, specValue, trailValue]
  | some x =>
    rw [show trailChars (some x) = renderNum x from rfl]
    rw [tsRun_num x _ hs2]
    have hne : String.mk (renderNum x) ≠ "" := mk_ne_empty _ (renderNum_ne_nil x)
    simp [hne, pyFloat_render x, specValue, trailValue]

theorem marksFrom_step (mark : String) (rest : List String) (ll l : ℚ) (k : ℕ) (v : ℚ)
    (hm : mark ≠ "...") (hp : tsParse mark = .ok v) :
    marksFrom (mark :: rest) ll l (k + 1) = marksFrom rest l v k := by
  conv_lhs => rw [marksFrom]
  rw [if_neg hm, hp]


theorem shApply_buf (env : String → Option String) (a : ShAct) (c : Char) (m : Sh) :
    (shApply env a c m).buf = m.buf := by
  cases a <;> simp only [shApply] <;> (try split) <;> rfl

theorem shProcess_buf (env : String → Option String) (c : Char) (m : Sh) :
    (shProcess env c m).buf = m.buf := by
  simp only [shProcess]
  exact shApply_buf env _ c m

theorem shDrain_buf (env : String → Option String) :
    ∀ (k : ℕ) (m : Sh), (shDrain env k m).buf = m.buf := by
  intro k
  induction k with
  | zero => intro m; rfl
  | succ k ih =>
    intro m
    simp only [shDrain]
    match hs : m.stack with
    | [] => rfl
    | c :: rest => rw [ih, shProcess_buf]

theorem shStep_buf (env : String → Option String) (c : Char) (m : Sh) :
    (shStep env c m).buf = m.buf := by
  simp only [shStep]
  rw [shDrain_buf, shProcess_buf]

theorem shRunList_buf (env : String → Option String) :
    ∀ (cs : List Char) (m : Sh), (shRunList env cs m).buf = m.buf := by
  intro cs
  induction cs with
  | nil => intro m; rfl
  | cons c cs ih =>
    intro m
    show (shRunList env cs (shStep env c m)).buf = m.buf
    rw [ih, shStep_buf]

theorem run_focus (env : String → Option String) (l1 : List Char) (c : Char)
    (l2 : List Char) (m : Sh) :
    shRunList env (l1 ++ c :: l2) m = shRunList env l2 (shStep env c (shRunList env l1 m)) := by
  simp only [shRunList, List.foldl_append, List.foldl_cons]

theorem shRunList_append (env : String → Option String) (l1 l2 : List Char) (m : Sh) :
    shRunList env (l1 ++ l2) m = shRunList env l2 (shRunList env l1 m) := by
  simp only [shRunList, List.foldl_append]

theorem shFeed_out_eq (env : String → Option String) (t : String) (m : Sh) :
    (shFeed env t m).out = (shRunList env (m.buf ++ t).toList m).out := by
  simp only [shFeed]
  split <;> rfl

theorem sh_buf_update (m : Sh) (h : m.buf = "") : { m with buf := "" } = m := by
  cases m
  simp_all

theorem shFeed_of_empty_buf (env : String → Option String) (t : String) (m : Sh)
    (h : m.buf = "") : shFeed env t m = shRunList env t.toList m := by
  have ht : m.buf ++ t = t := by rw [h]; rfl
  simp only [shFeed, ht]
  split
  · exact sh_buf_update _ (by rw [shRunList_buf, h])
  · rfl

theorem shFeed_comp (env : String → Option String) (a b : String) (m : Sh)
    (h : m.buf = "") : shFeed env b (shFeed env a m) = shFeed env (a ++ b) m := by
  have h1 : shFeed env a m = shRunList env a.toList m := shFeed_of_empty_buf env a m h
  have h2 : (shFeed env a m).buf = "" := by rw [h1, shRunList_buf, h]
  rw [shFeed_of_empty_buf env b _ h2, shFeed_of_empty_buf env (a ++ b) m h, h1]
  rw [show (a ++ b).toList = a.toList ++ b.toList from String.data_append a b]
  simp only [shRunList, List.foldl_append]

/-- The tokenizer states reachable from state 0; each of them registers a
catch-all ANY transition in `_init`. -/
def validState (st : ℕ) : Prop :=
  st = 0 ∨ st = 1 ∨ st = 2 ∨ st = 3 ∨ st = 6 ∨ st = 7 ∨ st = 8 ∨ st = 9 ∨ st = 10

theorem shDrain_of_nil (env : String → Option String) (k : ℕ) (m : Sh)
    (h : m.stack = []) : shDrain env k m = m := by
  cases k with
  | zero => rfl
  | succ k =>
    simp only [shDrain]
    rw [h]

theorem shApply_stack (env : String → Option String) (a : ShAct) (c : Char) (m : Sh) :
    (shApply env a c m).stack =
      if a = ShAct.endvar then c :: m.stack else if a = ShAct.err then [] else m.stack := by
  cases a <;> simp only [shApply] <;> split_ifs <;> simp_all

theorem shApply_errout (env : String → Option String) (a : ShAct) (c : Char) (m : Sh)
    (h : a ≠ ShAct.err) : (shApply env a c m).errout = m.errout := by
  cases a <;> simp only [shApply] <;> (try split_ifs) <;> simp_all

theorem shApply_out_char (env : String → Option String) (a : ShAct) (c c2 : Char) (m : Sh) :
    (shApply env a c m).out = (shApply env a c2 m).out := by
  cases a <;> simp only [shApply]

theorem shStep_of_lookup (env : String → Option String) (c : Char) (m : Sh)
    (a : ShAct) (t : ℕ) (hlk : shLookup m.current_state c = (a, t))
    (ha1 : a ≠ ShAct.endvar) (ha2 : a ≠ ShAct.err) (hstk : m.stack = []) :
    shStep env c m = { shApply env a c m with current_state := t } := by
  unfold shStep shProcess
  rw [hlk]
  refine shDrain_of_nil env 2 _ ?_
  show (shApply env a c m).stack = []
  rw [shApply_stack, if_neg ha1, if_neg ha2, hstk]

theorem shStep_of_err (env : String → Option String) (c : Char) (m : Sh)
    (hlk : shLookup m.current_state c = (ShAct.err, 0)) :
    shStep env c m = { m with current_state := 0, arg := "", stack := [],
                              errout := m.errout ++ [c] } := by
  unfold shStep shProcess
  rw [hlk]
  refine shDrain_of_nil env 2 _ rfl

theorem shStep_of_endvar (env : String → Option String) (c : Char) (m : Sh)
    (t : ℕ) (hlk : shLookup m.current_state c = (ShAct.endvar, t))
    (hstk : m.stack = [])
    (hb1 : (shLookup t c).1 ≠ ShAct.endvar) (hb2 : (shLookup t c).1 ≠ ShAct.err) :
    shStep env c m = shProcess env c
      { current_state := t, arg := (shApply env ShAct.endvar c m).arg,
        varname := (shApply env ShAct.endvar c m).varname, stack := [],
        arg_list := (shApply env ShAct.endvar c m).arg_list,
        out := (shApply env ShAct.endvar c m).out,
        buf := (shApply env ShAct.endvar c m).buf,
        errout := (shApply env ShAct.endvar c m).errout } := by
  have h1 : shProcess env c m = { shApply env ShAct.endvar c m with current_state := t } := by
    unfold shProcess
    rw [hlk]
  have hA : (shApply env ShAct.endvar c m).stack = [c] := by
    rw [shApply_stack, if_pos rfl, hstk]
  have h3 : (shProcess env c
      { current_state := t, arg := (shApply env ShAct.endvar c m).arg,
        varname := (shApply env ShAct.endvar c m).varname, stack := [],
        arg_list := (shApply env ShAct.endvar c m).arg_list,
        out := (shApply env ShAct.endvar c m).out,
        buf := (shApply env ShAct.endvar c m).buf,
        errout := (shApply env ShAct.endvar c m).errout }).stack = [] := by
    show (shApply env (shLookup t c).1 c _).stack = []
    rw [shApply_stack, if_neg hb1, if_neg hb2]
  show shDrain env 2 (shProcess env c m) = _
  rw [h1]
  simp only [shDrain, hA, h3]

theorem shRunList_nil (env : String → Option String) (m : Sh) :
    shRunList env [] m = m := rfl

theorem shRunList_cons (env : String → Option String) (c : Char) (cs : List Char) (m : Sh) :
    shRunList env (c :: cs) m = shRunList env cs (shStep env c m) := rfl

theorem shLookup_state0 (c : Char) :
    (shLookup 0 c).1 ≠ ShAct.endvar ∧ (shLookup 0 c).1 ≠ ShAct.err ∧
      validState (shLookup 0 c).2 := by
  simp only [shLookup]
  split_ifs <;> simp [validState]

theorem shLookup_state3 (c : Char) :
    (shLookup 3 c).1 ≠ ShAct.endvar ∧ (shLookup 3 c).1 ≠ ShAct.err ∧
      validState (shLookup 3 c).2 := by
  simp only [shLookup]
  split_ifs <;> simp [validState]

theorem shLookup_cases (st : ℕ) (c : Char) (h : validState st) :
    ((shLookup st c).1 ≠ ShAct.endvar ∧ (shLookup st c).1 ≠ ShAct.err ∧
      validState (shLookup st c).2)
    ∨ (shLookup st c = (ShAct.endvar, 0) ∧ st = 7)
    ∨ (shLookup st c = (ShAct.endvar, 3) ∧ st = 8) := by
  rcases h with h|h|h|h|h|h|h|h|h <;> subst h <;> simp only [shLookup] <;>
    (try split_ifs) <;> simp [validState]

theorem shLookup_invalid (st : ℕ) (c : Char) (h : ¬ validState st) :
    shLookup st c = (ShAct.err, 0) := by
  rcases st with _|_|_|_|_|_|_|_|_|_|_|k <;>
    first
    | rfl
    | exact absurd (by simp [validState]) h

theorem shStep_inv (env : String → Option String) (c : Char) (m : Sh)
    (hstk : m.stack = []) (hv : validState m.current_state) :
    (shStep env c m).stack = [] ∧ validState (shStep env c m).current_state ∧
      (shStep env c m).errout = m.errout := by
  rcases shLookup_cases m.current_state c hv with ⟨h1, h2, h3⟩ | ⟨hlk, h7⟩ | ⟨hlk, h8⟩
  · obtain ⟨a, t, hlk⟩ : ∃ a t, shLookup m.current_state c = (a, t) := ⟨_, _, rfl⟩
    rw [hlk] at h1 h2 h3
    rw [shStep_of_lookup env c m a t hlk h1 h2 hstk]
    refine ⟨?_, h3, ?_⟩
    · show (shApply env a c m).stack = []
      rw [shApply_stack, if_neg h1, if_neg h2, hstk]
    · show (shApply env a c m).errout = m.errout
      exact shApply_errout env a c m h2
  · have hb := shLookup_state0 c
    rw [shStep_of_endvar env c m 0 hlk hstk hb.1 hb.2.1]
    refine ⟨?_, hb.2.2, ?_⟩
    · show (shApply env (shLookup 0 c).1 c _).stack = []
      rw [shApply_stack, if_neg hb.1, if_neg hb.2.1]
    · show (shApply env (shLookup 0 c).1 c _).errout = m.errout
      rw [shApply_errout env _ c _ hb.2.1]
      show (shApply env ShAct.endvar c m).errout = m.errout
      exact shApply_errout env ShAct.endvar c m (by simp)
  · have hb := shLookup_state3 c
    rw [shStep_of_endvar env c m 3 hlk hstk hb.1 hb.2.1]
    refine ⟨?_, hb.2.2, ?_⟩
    · show (shApply env (shLookup 3 c).1 c _).stack = []
      rw [shApply_stack, if_neg hb.1, if_neg hb.2.1]
    · show (shApply env (shLookup 3 c).1 c _).errout = m.errout
      rw [shApply_errout env _ c _ hb.2.1]
      show (shApply env ShAct.endvar c m).errout = m.errout
      exact shApply_errout env ShAct.endvar c m (by simp)

theorem shStep_stack_nil (env : String → Option String) (c : Char) (m : Sh)
    (hstk : m.stack = []) : (shStep env c m).stack = [] := by
  by_cases hv : validState m.current_state
  · exact (shStep_inv env c m hstk hv).1
  · rw [shStep_of_err env c m (shLookup_invalid m.current_state c hv)]

theorem shRunList_stack_nil (env : String → Option String) (cs : List Char) (m : Sh)
    (hstk : m.stack = []) : (shRunList env cs m).stack = [] := by
  induction cs generalizing m with
  | nil => exact hstk
  | cons c cs ih =>
    rw [shRunList_cons]
    exact ih _ (shStep_stack_nil env c m hstk)

theorem shRunList_inv (env : String → Option String) (cs : List Char) (m : Sh)
    (hstk : m.stack = []) (hv : validState m.current_state) :
    (shRunList env cs m).stack = [] ∧ validState (shRunList env cs m).current_state ∧
      (shRunList env cs m).errout = m.errout := by
  induction cs generalizing m with
  | nil => exact ⟨hstk, hv, rfl⟩
  | cons c cs ih =>
    rw [shRunList_cons]
    obtain ⟨s1, s2, s3⟩ := shStep_inv env c m hstk hv
    obtain ⟨r1, r2, r3⟩ := ih _ s1 s2
    exact ⟨r1, r2, by rw [r3, s3]⟩

set_option maxHeartbeats 2000000 in
theorem shStep_out_term (env : String → Option String) (m : Sh)
    (hstk : m.stack = []) : (shStep env ';' m).out = (shStep env '\n' m).out := by
  rcases m with ⟨st, arg, vn, stk, al, outv, buf, eo⟩
  change stk = [] at hstk
  subst hstk
  rcases st with _|_|_|_|_|_|_|_|_|_|_|k <;> with_unfolding_all rfl

/-- C5 (amended): feeding `"ec"` then `"ho x\n"` delivers the same argument
vectors as feeding `"echo x\n"` in one call; the trailing partial token is
retained in the automaton's accumulator while the carry-over buffer stays
empty, and splitting the input at any chunk boundary gives an identical
session state. -/
theorem shparser_streaming_equivalence :
    (shFeed envEmpty "ho x\n" (shFeed envEmpty "ec" initSh)).out
      = (shFeed envEmpty "echo x\n" initSh).out
    ∧ (shFeed envEmpty "ec" initSh).arg = "ec"
    ∧ (shFeed envEmpty "ec" initSh).buf = ""
    ∧ ∀ (env : String → Option String) (a b : String),
        shFeed env b (shFeed env a initSh) = shFeed env (a ++ b) initSh := by
  refine ⟨by with_unfolding_all rfl, by with_unfolding_all rfl,
    by with_unfolding_all rfl, ?_⟩
  intro env a b
  exact shFeed_comp env a b initSh rfl

/-- C5 (counterexample to the claim as stated): after feeding `"ec"`, the
trailing partial token `"ec"` is NOT retained in the session's carry-over
buffer — the buffer is empty, and the partial token lives in the
automaton's accumulator instead. -/
theorem shparser_streaming_buffer_counterexample :
    (shFeed envEmpty "ec" initSh).buf = "" ∧ (shFeed envEmpty "ec" initSh).buf ≠ "ec" ∧
    (shFeed envEmpty "ec" initSh).arg = "ec" := by
  have hb : (shFeed envEmpty "ec" initSh).buf = "" := by with_unfolding_all rfl
  refine ⟨hb, by rw [hb]; simp, by with_unfolding_all rfl⟩

set_option linter.unusedVariables false in
/-- C6: for every environment and every input string with balanced
quoting, feeding `s ++ ";"` delivers exactly the same sequence of argument
vectors to the callback as feeding `s ++ "\n"`: the two statement
terminators are interchangeable (the proof shows the hypothesis is not
even needed for the delivered vectors: outside state 0 neither terminator
triggers a delivery, so the outputs agree regardless). -/
theorem shparser_terminator_interchangeable (env : String → Option String)
    (s : String) (h : balancedQuoting env s) :
    (shFeed env (s ++ ";") initSh).out = (shFeed env (s ++ "\n") initSh).out := by
  rw [shFeed_of_empty_buf env _ initSh rfl, shFeed_of_empty_buf env _ initSh rfl]
  rw [show (s ++ ";").toList = s.toList ++ [';'] from String.data_append s ";"]
  rw [show (s ++ "\n").toList = s.toList ++ ['\n'] from String.data_append s "\n"]
  rw [show s.toList ++ [';'] = s.toList ++ ';' :: [] from rfl, run_focus]
  rw [show s.toList ++ ['\n'] = s.toList ++ '\n' :: [] from rfl, run_focus]
  rw [shRunList_nil, shRunList_nil]
  exact shStep_out_term env _ (shRunList_stack_nil env s.toList initSh rfl)

/-- C6 witness: the concrete balanced input `"echo x"`. -/
theorem shparser_terminator_interchangeable_witness :
    balancedQuoting envEmpty "echo x" ∧
    (shFeed envEmpty ("echo x" ++ ";") initSh).out
      = (shFeed envEmpty ("echo x" ++ "\n") initSh).out := by
  have hst : (shRunList envEmpty ("echo x").toList initSh).current_state = 0 := by
    with_unfolding_all rfl
  have hb : balancedQuoting envEmpty "echo x" := by
    unfold balancedQuoting
    rw [hst]
    exact ⟨by simp, by simp, by simp, by simp, by simp⟩
  exact ⟨hb, shparser_terminator_interchangeable envEmpty "echo x" hb⟩

/-- C7 (divergence evidence): `ShellParser.reset` clears only `arg_list`
and the carry-over buffer, not the automaton's state or accumulator, so
after feeding `"x\na"` (which leaves the partial token `"a"` in the
accumulator), a `reset` followed by feeding the same input again delivers
`["ax"]` instead of `["x"]`. -/
theorem shparser_reset_feed_divergence :
    (shFeed envEmpty "x\na" initSh).out = [["x"]] ∧
    (shFeed envEmpty "x\na" (shReset (shFeed envEmpty "x\na" initSh))).out
      = [["x"], ["ax"]] ∧
    (["ax"] : List String) ≠ ["x"] := by
  exact ⟨by with_unfolding_all rfl, by with_unfolding_all rfl, by simp⟩

/-- C9: every state reachable from state 0 (namely 0, 1, 2, 3, 6, 7, 8, 9
and 10) registers a catch-all ANY transition, so for every environment and
every input sequence the default (error) transition never fires: `_error`
reports nothing and the run stays inside the reachable states. -/
theorem shparser_default_transition_unreachable (env : String → Option String)
    (cs : List Char) :
    (shRunList env cs initSh).errout = []
    ∧ validState (shRunList env cs initSh).current_state
    ∧ (∀ c : Char,
        (shLookup 0 c).1 ≠ ShAct.err ∧ (shLookup 1 c).1 ≠ ShAct.err ∧
        (shLookup 2 c).1 ≠ ShAct.err ∧ (shLookup 3 c).1 ≠ ShAct.err ∧
        (shLookup 6 c).1 ≠ ShAct.err ∧ (shLookup 7 c).1 ≠ ShAct.err ∧
        (shLookup 8 c).1 ≠ ShAct.err ∧ (shLookup 9 c).1 ≠ ShAct.err ∧
        (shLookup 10 c).1 ≠ ShAct.err) := by
  refine ⟨?_, (shRunList_inv env cs initSh rfl (Or.inl rfl)).2.1, ?_⟩
  · rw [(shRunList_inv env cs initSh rfl (Or.inl rfl)).2.2]
    rfl
  · intro c
    refine ⟨?_, ?_, ?_, ?_, ?_, ?_, ?_, ?_, ?_⟩ <;>
      (simp only [shLookup]; (try split_ifs) <;> simp)

set_option maxHeartbeats 1000000 in
/-- C1: feeding the tokenizer `echo "a b" 'c d' $HOME` plus a newline, in
any environment resolving `HOME` to `/home/u`, delivers exactly the vector
`["echo", "a b", "c d", "/home/u"]` to the callback; moreover the newline
finds the automaton in the bare-variable state 7 and `_endvar` pushes that
very newline back onto the stack for reprocessing, so the one physical
newline both terminates the variable and delivers the vector. -/
theorem shparser_roundtrip_home (env : String → Option String)
    (h : env "HOME" = some "/home/u") :
    (shFeed env "echo \"a b\" 'c d' $HOME\n" initSh).out
        = [["echo", "a b", "c d", "/home/u"]]
    ∧ (shRunList env ("echo \"a b\" 'c d' $HOME").toList initSh).current_state = 7
    ∧ (shProcess env '\n' (shRunList env ("echo \"a b\" 'c d' $HOME").toList initSh)).stack
        = ['\n'] := by
  have hz : envGet env "HOME" = "/home/u" := by
    unfold envGet
    rw [h]
    rfl
  have hM_a0 : shRunList env ("ec").toList initSh
      = { current_state := 0, arg := "ec", varname := "", stack := [], arg_list := [], out := [], buf := "", errout := [] } := by
    with_unfolding_all rfl
  have hM_a1 : shRunList env ("ho").toList { current_state := 0, arg := "ec", varname := "", stack := [], arg_list := [], out := [], buf := "", errout := [] }
      = { current_state := 0, arg := "echo", varname := "", stack := [], arg_list := [], out := [], buf := "", errout := [] } := by
    with_unfolding_all rfl
  have hM_a2 : shRunList env (" \"").toList { current_state := 0, arg := "echo", varname := "", stack := [], arg_list := [], out := [], buf := "", errout := [] }
      = { current_state := 3, arg := "", varname := "", stack := [], arg_list := ["echo"], out := [], buf := "", errout := [] } := by
    with_unfolding_all rfl
  have hM_a3 : shRunList env ("a ").toList { current_state := 3, arg := "", varname := "", stack := [], arg_list := ["echo"], out := [], buf := "", errout := [] }
      = { current_state := 3, arg := "a ", varname := "", stack := [], arg_list := ["echo"], out := [], buf := "", errout := [] } := by
    with_unfolding_all rfl
  have hM_a4 : shRunList env ("b\"").toList { current_state := 3, arg := "a ", varname := "", stack := [], arg_list := ["echo"], out := [], buf := "", errout := [] }
      = { current_state := 0, arg := "", varname := "", stack := [], arg_list := ["echo", "a b"], out := [], buf := "", errout := [] } := by
    with_unfolding_all rfl
  have hM_a5 : shRunList env (" '").toList { current_state := 0, arg := "", varname := "", stack := [], arg_list := ["echo", "a b"], out := [], buf := "", errout := [] }
      = { current_state := 2, arg := "", varname := "", stack := [], arg_list := ["echo", "a b"], out := [], buf := "", errout := [] } := by
    with_unfolding_all rfl
  have hM_a6 : shRunList env ("c ").toList { current_state := 2, arg := "", varname := "", stack := [], arg_list := ["echo", "a b"], out := [], buf := "", errout := [] }
      = { current_state := 2, arg := "c ", varname := "", stack := [], arg_list := ["echo", "a b"], out := [], buf := "", errout := [] } := by
    with_unfolding_all rfl
  have hM_a7 : shRunList env ("d'").toList { current_state := 2, arg := "c ", varname := "", stack := [], arg_list := ["echo", "a b"], out := [], buf := "", errout := [] }
      = { current_state := 0, arg := "", varname := "", stack := [], arg_list := ["echo", "a b", "c d"], out := [], buf := "", errout := [] } := by
    with_unfolding_all rfl
  have hM_a8 : shRunList env (" $").toList { current_state := 0, arg := "", varname := "", stack := [], arg_list := ["echo", "a b", "c d"], out := [], buf := "", errout := [] }
      = { current_state := 7, arg := "", varname := "$", stack := [], arg_list := ["echo", "a b", "c d"], out := [], buf := "", errout := [] } := by
    with_unfolding_all rfl
  have hM_a9 : shRunList env ("HO").toList { current_state := 7, arg := "", varname := "$", stack := [], arg_list := ["echo", "a b", "c d"], out := [], buf := "", errout := [] }
      = { current_state := 7, arg := "", varname := "$HO", stack := [], arg_list := ["echo", "a b", "c d"], out := [], buf := "", errout := [] } := by
    with_unfolding_all rfl
  have hM_a10 : shRunList env ("ME").toList { current_state := 7, arg := "", varname := "$HO", stack := [], arg_list := ["echo", "a b", "c d"], out := [], buf := "", errout := [] }
      = { current_state := 7, arg := "", varname := "$HOME", stack := [], arg_list := ["echo", "a b", "c d"], out := [], buf := "", errout := [] } := by
    with_unfolding_all rfl
  have hM : shRunList env ("echo \"a b\" 'c d' $HOME").toList initSh
      = { current_state := 7, arg := "", varname := "$HOME", stack := [], arg_list := ["echo", "a b", "c d"], out := [], buf := "", errout := [] } := by
    rw [show ("echo \"a b\" 'c d' $HOME").toList = ("ec").toList ++ (("ho").toList ++ ((" \"").toList ++ (("a ").toList ++ (("b\"").toList ++ ((" '").toList ++ (("c ").toList ++ (("d'").toList ++ ((" $").toList ++ (("HO").toList ++ (("ME").toList)))))))))) from rfl]
    rw [shRunList_append, hM_a0, shRunList_append, hM_a1, shRunList_append, hM_a2, shRunList_append, hM_a3, shRunList_append, hM_a4, shRunList_append, hM_a5, shRunList_append, hM_a6, shRunList_append, hM_a7, shRunList_append, hM_a8, shRunList_append, hM_a9, hM_a10]
  have hP : shProcess env '\n'
      { current_state := 7, arg := "", varname := "$HOME", stack := [],
        arg_list := ["echo", "a b", "c d"], out := [], buf := "", errout := [] }
      = { current_state := 0, arg := "" ++ envGet env "HOME", varname := "$HOME",
          stack := ['\n'], arg_list := ["echo", "a b", "c d"], out := [], buf := "",
          errout := [] } := by
    with_unfolding_all rfl
  rw [hz] at hP
  refine ⟨?_, by rw [hM], by rw [hM, hP]⟩
  rw [shFeed_of_empty_buf env _ initSh rfl]
  rw [show ("echo \"a b\" 'c d' $HOME\n").toList
      = ("echo \"a b\" 'c d' $HOME").toList ++ '\n' :: [] from rfl]
  rw [run_focus, shRunList_nil, hM]
  show (shDrain env 2 (shProcess env '\n' _)).out = _
  rw [hP]
  with_unfolding_all rfl

/-- C1 witness: the concrete environment mapping `HOME` to `/home/u`. -/
theorem shparser_roundtrip_home_witness :
    envHome "HOME" = some "/home/u" ∧
    (shFeed envHome "echo \"a b\" 'c d' $HOME\n" initSh).out
      = [["echo", "a b", "c d", "/home/u"]] :=
  ⟨by simp [envHome], (shparser_roundtrip_home envHome (by simp [envHome])).1⟩

set_option maxHeartbeats 1000000 in
/-- C8: in any environment where `FOO` is undefined, both `$FOO` and
`${FOO}` resolve to the empty string: tokenizing does not abort the token,
the surrounding argument vector is produced normally, and no syntax error
is reported. -/
theorem shparser_undefined_var (env : String → Option String)
    (h : env "FOO" = none) :
    (shFeed env "a$FOO b\n" initSh).out = [["a", "b"]]
    ∧ (shFeed env "a${FOO}b\n" initSh).out = [["ab"]]
    ∧ (shFeed env "a$FOO b\n" initSh).errout = []
    ∧ (shFeed env "a${FOO}b\n" initSh).errout = [] := by
  have hz : envGet env "FOO" = "" := by
    unfold envGet
    rw [h]
    rfl
  have hM1_a0 : shRunList env ("a$").toList initSh
      = { current_state := 7, arg := "a", varname := "$", stack := [], arg_list := [], out := [], buf := "", errout := [] } := by
    with_unfolding_all rfl
  have hM1_a1 : shRunList env ("FO").toList { current_state := 7, arg := "a", varname := "$", stack := [], arg_list := [], out := [], buf := "", errout := [] }
      = { current_state := 7, arg := "a", varname := "$FO", stack := [], arg_list := [], out := [], buf := "", errout := [] } := by
    with_unfolding_all rfl
  have hM1_a2 : shRunList env ("O").toList { current_state := 7, arg := "a", varname := "$FO", stack := [], arg_list := [], out := [], buf := "", errout := [] }
      = { current_state := 7, arg := "a", varname := "$FOO", stack := [], arg_list := [], out := [], buf := "", errout := [] } := by
    with_unfolding_all rfl
  have hM1 : shRunList env ("a$FOO").toList initSh
      = { current_state := 7, arg := "a", varname := "$FOO", stack := [], arg_list := [], out := [], buf := "", errout := [] } := by
    rw [show ("a$FOO").toList = ("a$").toList ++ (("FO").toList ++ (("O").toList)) from rfl]
    rw [shRunList_append, hM1_a0, shRunList_append, hM1_a1, hM1_a2]
  have hM2_a0 : shRunList env ("a$").toList initSh
      = { current_state := 7, arg := "a", varname := "$", stack := [], arg_list := [], out := [], buf := "", errout := [] } := by
    with_unfolding_all rfl
  have hM2_a1 : shRunList env ("\x7bF").toList { current_state := 7, arg := "a", varname := "$", stack := [], arg_list := [], out := [], buf := "", errout := [] }
      = { current_state := 9, arg := "a", varname := "$\x7bF", stack := [], arg_list := [], out := [], buf := "", errout := [] } := by
    with_unfolding_all rfl
  have hM2_a2 : shRunList env ("OO").toList { current_state := 9, arg := "a", varname := "$\x7bF", stack := [], arg_list := [], out := [], buf := "", errout := [] }
      = { current_state := 9, arg := "a", varname := "$\x7bFOO", stack := [], arg_list := [], out := [], buf := "", errout := [] } := by
    with_unfolding_all rfl
  have hM2 : shRunList env ("a$\x7bFOO").toList initSh
      = { current_state := 9, arg := "a", varname := "$\x7bFOO", stack := [], arg_list := [], out := [], buf := "", errout := [] } := by
    rw [show ("a$\x7bFOO").toList = ("a$").toList ++ (("\x7bF").toList ++ (("OO").toList)) from rfl]
    rw [shRunList_append, hM2_a0, shRunList_append, hM2_a1, hM2_a2]
  have hP1 : shProcess env ' '
      { current_state := 7, arg := "a", varname := "$FOO", stack := [], arg_list := [],
        out := [], buf := "", errout := [] }
      = { current_state := 0, arg := "a" ++ envGet env "FOO", varname := "$FOO",
          stack := [' '], arg_list := [], out := [], buf := "", errout := [] } := by
    with_unfolding_all rfl
  rw [hz] at hP1
  have hP2 : shProcess env '}'
      { current_state := 9, arg := "a", varname := "$\x7bFOO", stack := [], arg_list := [],
        out := [], buf := "", errout := [] }
      = { current_state := 0, arg := "a" ++ envGet env "FOO", varname := "${FOO}",
          stack := [], arg_list := [], out := [], buf := "", errout := [] } := by
    with_unfolding_all rfl
  rw [hz] at hP2
  have hF1 : shFeed env "a$FOO b\n" initSh
      = { current_state := 0, arg := "", varname := "$FOO", stack := [],
          arg_list := [], out := [["a", "b"]], buf := "", errout := [] } := by
    rw [shFeed_of_empty_buf env _ initSh rfl]
    rw [show ("a$FOO b\n").toList = ("a$FOO").toList ++ ' ' :: ("b\n").toList from rfl]
    rw [run_focus, hM1]
    show shRunList env ("b\n").toList (shDrain env 2 (shProcess env ' ' _)) = _
    rw [hP1]
    with_unfolding_all rfl
  have hF2 : shFeed env "a${FOO}b\n" initSh
      = { current_state := 0, arg := "", varname := "${FOO}", stack := [],
          arg_list := [], out := [["ab"]], buf := "", errout := [] } := by
    rw [shFeed_of_empty_buf env _ initSh rfl]
    rw [show ("a${FOO}b\n").toList = ("a$\x7bFOO").toList ++ '}' :: ("b\n").toList from rfl]
    rw [run_focus, hM2]
    show shRunList env ("b\n").toList (shDrain env 2 (shProcess env '}' _)) = _
    rw [hP2]
    with_unfolding_all rfl
  rw [hF1, hF2]
  exact ⟨rfl, rfl, rfl, rfl⟩

/-- C8 witness: the empty environment. -/
theorem shparser_undefined_var_witness :
    envEmpty "FOO" = none ∧ (shFeed envEmpty "a$FOO b\n" initSh).out = [["a", "b"]] :=
  ⟨rfl, (shparser_undefined_var envEmpty rfl).1⟩


/-- C2: `TimespecParser.parse` returns the sum over all `<number><unit>`
groups of the numeral value times the unit multiplier (`d` = 86400,
`h` = 3600, `m` = 60, `s` = 1), with a trailing unit-less numeral added
as bare seconds; in particular `parse("1d 3m")` returns 86580,
`parse("90")` returns 90 and `parse("1.5h")` returns 5400. -/
theorem timespec_parse_sums (gs : List TGroup) (tr : Option NumLit) :
    tsParse (String.mk (renderSpec gs tr)) = .ok (specValue gs tr)
    ∧ tsParse "1d 3m" = .ok 86580
    ∧ tsParse "90" = .ok 90
    ∧ tsParse "1.5h" = .ok 5400 :=
  ⟨tsParse_render gs tr, by with_unfolding_all rfl, by with_unfolding_all rfl,
   by with_unfolding_all rfl⟩

/-- C3: `TimeMarksGenerator("30s,1m,1h,3h,4h,...")` yields exactly 30, 60,
3600, 10800 and 14400, and from then on an unbounded arithmetic
progression with step `14400 - 10800 = 3600`: the `(n+5)`-th yield is
`18000 + 3600 * n` for every `n`, so the sequence never terminates. -/
theorem timespec_marks_generator (n : ℕ) :
    TimeMarksGenerator "30s,1m,1h,3h,4h,..." 0 = .ok (some 30)
    ∧ TimeMarksGenerator "30s,1m,1h,3h,4h,..." 1 = .ok (some 60)
    ∧ TimeMarksGenerator "30s,1m,1h,3h,4h,..." 2 = .ok (some 3600)
    ∧ TimeMarksGenerator "30s,1m,1h,3h,4h,..." 3 = .ok (some 10800)
    ∧ TimeMarksGenerator "30s,1m,1h,3h,4h,..." 4 = .ok (some 14400)
    ∧ TimeMarksGenerator "30s,1m,1h,3h,4h,..." (n + 5)
        = .ok (some (18000 + 3600 * (n : ℚ))) := by
  refine ⟨by with_unfolding_all rfl, by with_unfolding_all rfl, by with_unfolding_all rfl,
    by with_unfolding_all rfl, by with_unfolding_all rfl, ?_⟩
  unfold TimeMarksGenerator
  rw [show (("30s,1m,1h,3h,4h,...".splitOn ",").map String.trim)
      = ["30s", "1m", "1h", "3h", "4h", "..."] from by with_unfolding_all rfl]
  rw [show n + 5 = (n + 4) + 1 from rfl,
      marksFrom_step _ _ _ _ _ 30 (by decide) (by with_unfolding_all rfl)]
  rw [show n + 4 = (n + 3) + 1 from rfl,
      marksFrom_step _ _ _ _ _ 60 (by decide) (by with_unfolding_all rfl)]
  rw [show n + 3 = (n + 2) + 1 from rfl,
      marksFrom_step _ _ _ _ _ 3600 (by decide) (by with_unfolding_all rfl)]
  rw [show n + 2 = (n + 1) + 1 from rfl,
      marksFrom_step _ _ _ _ _ 10800 (by decide) (by with_unfolding_all rfl)]
  rw [marksFrom_step _ _ _ _ _ 14400 (by decide) (by with_unfolding_all rfl)]
  unfold marksFrom
  split
  · rw [show (14400 : ℚ) + (14400 - 10800) * ((n : ℚ) + 1)
        = 18000 + 3600 * (n : ℚ) from by ring]
  · simp_all

/-- C4: parsing `"1.2.3d"` — a numeral with two decimal points — raises
the malformed-input (default-transition) error on the second `.` rather
than returning a silently truncated value. -/
theorem timespec_double_decimal_error :
    tsParse "1.2.3d" = .error (.fsmError '.') := by
  with_unfolding_all rfl

/-- C10: the inputs `"+"` and `"5m-"` traverse the transition table
without ever hitting the default transition (every symbol is accepted,
leaving the accumulator holding a bare sign), yet `parse` raises a
`ValueError` from the unguarded `float()` flush at end of input — an
error distinct from the malformed-input (default-transition) error. -/
theorem timespec_flush_value_error :
    tsRun "+".toList { current_state := 0, arg := "", seconds := 0 }
      = .ok { current_state := 1, arg := "+", seconds := 0 }
    ∧ tsRun "5m-".toList { current_state := 0, arg := "", seconds := 0 }
      = .ok { current_state := 1, arg := "-", seconds := 300 }
    ∧ tsParse "+" = .error (.floatErrorFlush "+")
    ∧ tsParse "5m-" = .error (.floatErrorFlush "-")
    ∧ ∀ (s : String) (c : Char), TsErr.floatErrorFlush s ≠ TsErr.fsmError c := by
  refine ⟨by with_unfolding_all rfl, by with_unfolding_all rfl, by with_unfolding_all rfl,
    by with_unfolding_all rfl, fun s c h => by cases h⟩
